import Mathlib

/-! UnrealCLR: the native/managed command protocol.

A verification development for `Source/Native/Source/UnrealCLR/Public/UnrealCLR.h`:
the enumerations, the plain-data structures `Object`, `Argument` and `Command`
with their constructors, their memory layout, and the tick hooks.

Conventions of the embedding.

* A pointer is the natural number of its address; the null pointer is `0`.
* A `float` is the natural number of its 32 bits (the header never computes
  with a float, it only stores one). `0.0f` is the bit pattern `0`.
* A `uint32_t` is a natural number, an `int32` an integer; the value range of
  the C++ type is a hypothesis wherever it matters.
* An anonymous `union` is a sum type whose constructor is the member that was
  written; a union no member of which was written is `unset`.
-/

namespace UnrealCLR

/-! ## Enumerations -/

/-- The `enum struct StatusType : int32`. -/
inductive StatusType
  | Stopped
  | Idle
  | Running
deriving DecidableEq, Repr

/-- The `enum struct TickState : int32`. -/
inductive TickState
  | Stopped
  | Registered
  | Started
deriving DecidableEq, Repr

/-- The `enum struct ObjectType : int32`. -/
inductive ObjectType
  | ActorOverlapDelegate
  | ActorHitDelegate
  | ActorCursorDelegate
  | ComponentOverlapDelegate
  | ComponentHitDelegate
  | ComponentCursorDelegate
deriving DecidableEq, Repr

/-- The `enum struct ArgumentType : int32`. -/
inductive ArgumentType
  | None
  | Single
  | Integer
  | Pointer
  | Object
deriving DecidableEq, Repr

/-- The `enum struct CommandType : int32`. -/
inductive CommandType
  | Initialize
  | LoadAssemblies
  | UnloadAssemblies
  | Find
  | Execute
deriving DecidableEq, Repr

/-- Numeric value of an `ObjectType` enumerator (implicit numbering from 0). -/
def ObjectType.toInt32 : ObjectType → Int
  | .ActorOverlapDelegate => 0
  | .ActorHitDelegate => 1
  | .ActorCursorDelegate => 2
  | .ComponentOverlapDelegate => 3
  | .ComponentHitDelegate => 4
  | .ComponentCursorDelegate => 5

/-- Numeric value of an `ArgumentType` enumerator (implicit numbering from 0). -/
def ArgumentType.toInt32 : ArgumentType → Int
  | .None => 0
  | .Single => 1
  | .Integer => 2
  | .Pointer => 3
  | .Object => 4

/-- Numeric value of a `CommandType` enumerator (explicit in the header). -/
def CommandType.toInt32 : CommandType → Int
  | .Initialize => 1
  | .LoadAssemblies => 2
  | .UnloadAssemblies => 3
  | .Find => 4
  | .Execute => 5

/-- The enumerator of `ObjectType` with a given numeric value, if any. -/
def ObjectType.ofInt32 (n : Int) : Option ObjectType :=
  if n = 0 then some .ActorOverlapDelegate
  else if n = 1 then some .ActorHitDelegate
  else if n = 2 then some .ActorCursorDelegate
  else if n = 3 then some .ComponentOverlapDelegate
  else if n = 4 then some .ComponentHitDelegate
  else if n = 5 then some .ComponentCursorDelegate
  else none

/-- The enumerator of `ArgumentType` with a given numeric value, if any. -/
def ArgumentType.ofInt32 (n : Int) : Option ArgumentType :=
  if n = 0 then some .None
  else if n = 1 then some .Single
  else if n = 2 then some .Integer
  else if n = 3 then some .Pointer
  else if n = 4 then some .Object
  else none

/-- The enumerator of `CommandType` with a given numeric value, if any. -/
def CommandType.ofInt32 (n : Int) : Option CommandType :=
  if n = 1 then some .Initialize
  else if n = 2 then some .LoadAssemblies
  else if n = 3 then some .UnloadAssemblies
  else if n = 4 then some .Find
  else if n = 5 then some .Execute
  else none

/-- The unnamed `enum` of event slots: `OnWorldPrePhysicsTick`. -/
def OnWorldPrePhysicsTick : Nat := 2

/-- The unnamed `enum` of event slots: `OnWorldDuringPhysicsTick`. -/
def OnWorldDuringPhysicsTick : Nat := 3

/-- The unnamed `enum` of event slots: `OnWorldPostPhysicsTick`. -/
def OnWorldPostPhysicsTick : Nat := 4

/-- The unnamed `enum` of event slots: `OnWorldPostUpdateTick`. -/
def OnWorldPostUpdateTick : Nat := 5

/-! ## The structures and their constructors -/

/-- The `struct Object`: a parameter-array pointer and the delegate category. -/
structure Object where
  Parameters : Nat
  Type_ : ObjectType
deriving DecidableEq, Repr

/-- The constructor `Object(void** Parameters, ObjectType Type)`. -/
def Object.ofParameters (Parameters : Nat) (Type_ : ObjectType) : Object :=
  { Parameters := Parameters, Type_ := Type_ }

/-- The anonymous union of `struct Argument`, by the member that was written. -/
inductive ArgumentUnion
  | Single (Value : Nat)
  | Integer (Value : Nat)
  | Pointer (Value : Nat)
  | Object (Value : Object)
deriving DecidableEq, Repr

/-- The `struct Argument`: the union and its discriminant. -/
structure Argument where
  payload : ArgumentUnion
  Type_ : ArgumentType
deriving DecidableEq, Repr

/-- The constructor `Argument(float Value)`. -/
def Argument.ofSingle (Value : Nat) : Argument :=
  { payload := .Single Value, Type_ := .Single }

/-- The constructor `Argument(uint32_t Value)`. -/
def Argument.ofInteger (Value : Nat) : Argument :=
  { payload := .Integer Value, Type_ := .Integer }

/-- The constructor `Argument(void* Value)`: `!Value ? None : Pointer`. -/
def Argument.ofPointer (Value : Nat) : Argument :=
  { payload := .Pointer Value
    Type_ := if Value = 0 then .None else .Pointer }

/-- The constructor `Argument(UnrealCLR::Object Value)`. -/
def Argument.ofObject (Value : Object) : Argument :=
  { payload := .Object Value, Type_ := .Object }

/-- The anonymous union of `struct Command`, by the anonymous struct whose
members were written; `unset` when the constructor wrote none of them. -/
inductive CommandUnion
  | unset
  | BufferChecksum (Buffer : Nat) (Checksum : Int)
  | MethodOptional (Method : Nat) (Optional : Int)
  | FunctionValue (Function : Nat) (Value : Argument)
deriving DecidableEq, Repr

/-- The `struct Command`: the union and the verb. -/
structure Command where
  payload : CommandUnion
  Type_ : CommandType
deriving DecidableEq, Repr

/-- The constructor `Command(void* const Functions[3], int32 Checksum)`. -/
def Command.ofFunctions (Functions : Nat) (Checksum : Int) : Command :=
  { payload := .BufferChecksum Functions Checksum, Type_ := .Initialize }

/-- The constructor `Command(bool ProcessAssemblies)`: it assigns `Type` only. -/
def Command.ofBool (ProcessAssemblies : Bool) : Command :=
  if ProcessAssemblies then
    { payload := .unset, Type_ := .LoadAssemblies }
  else
    { payload := .unset, Type_ := .UnloadAssemblies }

/-- The constructor `Command(const char* Method, bool Optional)`; the `bool`
converts to `int32` as 1 or 0. -/
def Command.ofMethod (Method : Nat) (Optional : Bool) : Command :=
  { payload := .MethodOptional Method (if Optional then 1 else 0), Type_ := .Find }

/-- The constructor `Command(void* Function)`; `this->Value = nullptr` converts
`nullptr` through `Argument(void*)`, the only constructor that accepts it. -/
def Command.ofFunction (Function : Nat) : Command :=
  { payload := .FunctionValue Function (Argument.ofPointer 0), Type_ := .Execute }

/-- The constructor `Command(void* Function, Argument Value)`. -/
def Command.ofFunctionValue (Function : Nat) (Value : Argument) : Command :=
  { payload := .FunctionValue Function Value, Type_ := .Execute }

/-! ## Field projections of the structured values -/

/-- The `Buffer` member, when the first anonymous struct is the written one. -/
def Command.Buffer (c : Command) : Option Nat :=
  match c.payload with
  | .BufferChecksum b _ => some b
  | _ => none

/-- The `Checksum` member, when the first anonymous struct is the written one. -/
def Command.Checksum (c : Command) : Option Int :=
  match c.payload with
  | .BufferChecksum _ k => some k
  | _ => none

/-- The `Method` member, when the second anonymous struct is the written one. -/
def Command.Method (c : Command) : Option Nat :=
  match c.payload with
  | .MethodOptional m _ => some m
  | _ => none

/-- The `Optional` member, when the second anonymous struct is the written one. -/
def Command.Optional (c : Command) : Option Int :=
  match c.payload with
  | .MethodOptional _ o => some o
  | _ => none

/-- The `Function` member, when the third anonymous struct is the written one. -/
def Command.Function (c : Command) : Option Nat :=
  match c.payload with
  | .FunctionValue f _ => some f
  | _ => none

/-- The `Value` member, when the third anonymous struct is the written one. -/
def Command.Value (c : Command) : Option Argument :=
  match c.payload with
  | .FunctionValue _ v => some v
  | _ => none

/-! ## Memory layout -/

/-- Size and alignment of a C++ type, in bytes. -/
structure Layout where
  size : Nat
  align : Nat
deriving DecidableEq, Repr

/-- Round `n` up to a multiple of `a`. -/
def alignUp (n a : Nat) : Nat := (n + a - 1) / a * a

/-- Offsets of consecutive struct members, the first free byte being `cur`. -/
def Layout.fieldOffsetsFrom (cur : Nat) : List Layout → List Nat
  | [] => []
  | f :: fs => alignUp cur f.align :: Layout.fieldOffsetsFrom (alignUp cur f.align + f.size) fs

/-- First free byte after consecutive struct members, starting at `cur`. -/
def Layout.endFrom (cur : Nat) : List Layout → Nat
  | [] => cur
  | f :: fs => Layout.endFrom (alignUp cur f.align + f.size) fs

/-- Largest alignment among members. -/
def Layout.maxAlign (ms : List Layout) : Nat := ms.foldr (fun m a => max m.align a) 1

/-- Largest size among members. -/
def Layout.maxSize (ms : List Layout) : Nat := ms.foldr (fun m a => max m.size a) 0

/-- A struct: members in order, each at its alignment, the whole padded to the
largest member alignment. -/
def Layout.struct (fields : List Layout) : Layout :=
  { size := alignUp (Layout.endFrom 0 fields) (Layout.maxAlign fields)
    align := Layout.maxAlign fields }

/-- A union: all members at offset 0, sized to the largest member. -/
def Layout.union (members : List Layout) : Layout :=
  { size := alignUp (Layout.maxSize members) (Layout.maxAlign members)
    align := Layout.maxAlign members }

/-- Offset of the `i`-th member of a struct. -/
def Layout.fieldOffset (fields : List Layout) (i : Nat) : Nat :=
  (Layout.fieldOffsetsFrom 0 fields).getD i 0

/-- A data or function pointer on the target: 8 bytes, aligned to 8. -/
def Layout.pointer : Layout := { size := 8, align := 8 }

/-- The engine's `int32`, and every `enum struct ... : int32`: 4 bytes, aligned to 4. -/
def Layout.int32 : Layout := { size := 4, align := 4 }

/-- A `float`: 4 bytes, aligned to 4. -/
def Layout.float : Layout := { size := 4, align := 4 }

/-- A `uint32_t`: 4 bytes, aligned to 4. -/
def Layout.uint32 : Layout := { size := 4, align := 4 }

/-- Members of `struct Object`: `void** Parameters; ObjectType Type;`. -/
def Object.fields : List Layout := [Layout.pointer, Layout.int32]

/-- Layout of `struct Object`. -/
def Object.layout : Layout := Layout.struct Object.fields

/-- Layout of the anonymous union of `struct Argument`. -/
def Argument.unionLayout : Layout :=
  Layout.union [Layout.float, Layout.uint32, Layout.pointer, Object.layout]

/-- Members of `struct Argument`: the union, then `ArgumentType Type;`. -/
def Argument.fields : List Layout := [Argument.unionLayout, Layout.int32]

/-- Layout of `struct Argument`. -/
def Argument.layout : Layout := Layout.struct Argument.fields

/-- Members of the anonymous struct `{ void* Buffer; int32 Checksum; }`. -/
def Command.fieldsBufferChecksum : List Layout := [Layout.pointer, Layout.int32]

/-- Members of the anonymous struct `{ char* Method; int32 Optional; }`. -/
def Command.fieldsMethodOptional : List Layout := [Layout.pointer, Layout.int32]

/-- Members of the anonymous struct `{ void* Function; Argument Value; }`. -/
def Command.fieldsFunctionValue : List Layout := [Layout.pointer, Argument.layout]

/-- Layout of the anonymous union of `struct Command`. -/
def Command.unionLayout : Layout :=
  Layout.union [Layout.struct Command.fieldsBufferChecksum,
    Layout.struct Command.fieldsMethodOptional,
    Layout.struct Command.fieldsFunctionValue]

/-- Members of `struct Command`: the union, then `CommandType Type;`. -/
def Command.fields : List Layout := [Command.unionLayout, Layout.int32]

/-- Layout of `struct Command`. -/
def Command.layout : Layout := Layout.struct Command.fields

/-- The three `static_assert`s on `sizeof`. -/
def staticAsserts : Bool :=
  Object.layout.size == 16 && Argument.layout.size == 24 && Command.layout.size == 40

/-- Offset of `Object::Parameters`. -/
def Object.offParameters : Nat := Layout.fieldOffset Object.fields 0

/-- Offset of `Object::Type`. -/
def Object.offType : Nat := Layout.fieldOffset Object.fields 1

/-- Offset of the union of `Argument` (of each of its members). -/
def Argument.offUnion : Nat := Layout.fieldOffset Argument.fields 0

/-- Offset of `Argument::Type`. -/
def Argument.offType : Nat := Layout.fieldOffset Argument.fields 1

/-- Offset of the union of `Command` (of each of its anonymous structs). -/
def Command.offUnion : Nat := Layout.fieldOffset Command.fields 0

/-- Offset of `Command::Buffer`. -/
def Command.offBuffer : Nat :=
  Command.offUnion + Layout.fieldOffset Command.fieldsBufferChecksum 0

/-- Offset of `Command::Checksum`. -/
def Command.offChecksum : Nat :=
  Command.offUnion + Layout.fieldOffset Command.fieldsBufferChecksum 1

/-- Offset of `Command::Method`. -/
def Command.offMethod : Nat :=
  Command.offUnion + Layout.fieldOffset Command.fieldsMethodOptional 0

/-- Offset of `Command::Optional`. -/
def Command.offOptional : Nat :=
  Command.offUnion + Layout.fieldOffset Command.fieldsMethodOptional 1

/-- Offset of `Command::Function`. -/
def Command.offFunction : Nat :=
  Command.offUnion + Layout.fieldOffset Command.fieldsFunctionValue 0

/-- Offset of `Command::Value`. -/
def Command.offValue : Nat :=
  Command.offUnion + Layout.fieldOffset Command.fieldsFunctionValue 1

/-- Offset of `Command::Type`. -/
def Command.offType : Nat := Layout.fieldOffset Command.fields 1

/-! ## Object representation in memory

The target is little-endian with 8-bit bytes. A memory maps each address to
the content of its byte; a constructor stores members at their offsets and
leaves every other byte of the object as it found it. -/

/-- Byte-addressed memory. -/
abbrev Mem := Nat → Nat

/-- Store the low `width` bytes of `v` at `off`, least significant first. -/
def storeLE (m : Mem) (off width v : Nat) : Mem :=
  fun i => if off ≤ i ∧ i < off + width then v / 256 ^ (i - off) % 256 else m i

/-- Load `width` bytes at `off`, least significant first. -/
def loadLE (m : Mem) (off : Nat) : Nat → Nat
  | 0 => 0
  | w + 1 => m off + 256 * loadLE m (off + 1) w

/-- Two's-complement bits of an `int32`. -/
def int32Bits (x : Int) : Nat := (x % 4294967296).toNat

/-- The `int32` with given two's-complement bits. -/
def int32OfBits (n : Nat) : Int :=
  if n < 2147483648 then (n : Int) else (n : Int) - 4294967296

/-- Store an `int32` (4 bytes). -/
def storeInt32 (m : Mem) (off : Nat) (x : Int) : Mem := storeLE m off 4 (int32Bits x)

/-- Load an `int32` (4 bytes). -/
def loadInt32 (m : Mem) (off : Nat) : Int := int32OfBits (loadLE m off 4)

/-- Store a pointer (8 bytes). -/
def storePointer (m : Mem) (off p : Nat) : Mem := storeLE m off 8 p

/-- Load a pointer (8 bytes). -/
def loadPointer (m : Mem) (off : Nat) : Nat := loadLE m off 8

/-- Store a `float` or a `uint32_t` (4 bytes). -/
def storeWord (m : Mem) (off v : Nat) : Mem := storeLE m off 4 v

/-- Load a `float` or a `uint32_t` (4 bytes). -/
def loadWord (m : Mem) (off : Nat) : Nat := loadLE m off 4

/-- Place an `Object` at address `this`: `Parameters`, then `Type`. -/
def Object.write (m : Mem) (this : Nat) (o : Object) : Mem :=
  storeInt32 (storePointer m (this + Object.offParameters) o.Parameters)
    (this + Object.offType) o.Type_.toInt32

/-- Read the `Object` at address `this`. -/
def Object.read (m : Mem) (this : Nat) : Option Object :=
  match ObjectType.ofInt32 (loadInt32 m (this + Object.offType)) with
  | none => none
  | some t => some { Parameters := loadPointer m (this + Object.offParameters), Type_ := t }

/-- Place the written member of the union of `Argument` at address `this`. -/
def ArgumentUnion.write (m : Mem) (this : Nat) : ArgumentUnion → Mem
  | .Single v => storeWord m this v
  | .Integer v => storeWord m this v
  | .Pointer p => storePointer m this p
  | .Object o => Object.write m this o

/-- Place an `Argument` at address `this`: the union member, then `Type`. -/
def Argument.write (m : Mem) (this : Nat) (a : Argument) : Mem :=
  storeInt32 (a.payload.write m (this + Argument.offUnion))
    (this + Argument.offType) a.Type_.toInt32

/-- Read the `Argument` at address `this` by switching on its tag. Under the
tag `None` the `Pointer` member is the one read: it is the member the only
constructor that sets `None` has written. -/
def Argument.read (m : Mem) (this : Nat) : Option Argument :=
  match ArgumentType.ofInt32 (loadInt32 m (this + Argument.offType)) with
  | none => none
  | some .None =>
    some { payload := .Pointer (loadPointer m (this + Argument.offUnion)), Type_ := .None }
  | some .Single =>
    some { payload := .Single (loadWord m (this + Argument.offUnion)), Type_ := .Single }
  | some .Integer =>
    some { payload := .Integer (loadWord m (this + Argument.offUnion)), Type_ := .Integer }
  | some .Pointer =>
    some { payload := .Pointer (loadPointer m (this + Argument.offUnion)), Type_ := .Pointer }
  | some .Object =>
    match Object.read m (this + Argument.offUnion) with
    | none => none
    | some o => some { payload := .Object o, Type_ := .Object }

/-- Place the written anonymous struct of the union of `Command` at `this`;
nothing is stored when no member was written. -/
def CommandUnion.write (m : Mem) (this : Nat) : CommandUnion → Mem
  | .unset => m
  | .BufferChecksum b k =>
    storeInt32 (storePointer m (this + Command.offBuffer) b) (this + Command.offChecksum) k
  | .MethodOptional s o =>
    storeInt32 (storePointer m (this + Command.offMethod) s) (this + Command.offOptional) o
  | .FunctionValue f v =>
    Argument.write (storePointer m (this + Command.offFunction) f) (this + Command.offValue) v

/-- Place a `Command` at address `this`: the payload members, then `Type`. -/
def Command.write (m : Mem) (this : Nat) (c : Command) : Mem :=
  storeInt32 (c.payload.write m this) (this + Command.offType) c.Type_.toInt32

/-- Read the verb of the `Command` at address `this`. -/
def Command.readType (m : Mem) (this : Nat) : Option CommandType :=
  CommandType.ofInt32 (loadInt32 m (this + Command.offType))

/-- Read the `Command` at address `this` by switching on its verb. -/
def Command.read (m : Mem) (this : Nat) : Option Command :=
  match Command.readType m this with
  | none => none
  | some .Initialize =>
    some { payload := .BufferChecksum (loadPointer m (this + Command.offBuffer))
             (loadInt32 m (this + Command.offChecksum))
           Type_ := .Initialize }
  | some .LoadAssemblies => some { payload := .unset, Type_ := .LoadAssemblies }
  | some .UnloadAssemblies => some { payload := .unset, Type_ := .UnloadAssemblies }
  | some .Find =>
    some { payload := .MethodOptional (loadPointer m (this + Command.offMethod))
             (loadInt32 m (this + Command.offOptional))
           Type_ := .Find }
  | some .Execute =>
    match Argument.read m (this + Command.offValue) with
    | none => none
    | some v =>
      some { payload := .FunctionValue (loadPointer m (this + Command.offFunction)) v
             Type_ := .Execute }

/-- The first `n` bytes of a memory, as a byte sequence. -/
def Mem.toBytes (m : Mem) (n : Nat) : List Nat := (List.range n).map (fun i => m i % 256)

/-- A byte sequence as a memory starting at address 0. -/
def Mem.ofBytes (bs : List Nat) : Mem := fun i => bs.getD i 0

/-- Encode an `Object` into `sizeof(Object)` bytes; `init` gives the bytes
that no member covers. -/
def Object.encode (init : Mem) (o : Object) : List Nat :=
  Mem.toBytes (Object.write init 0 o) Object.layout.size

/-- Decode an `Object` from its bytes. -/
def Object.decode (bs : List Nat) : Option Object := Object.read (Mem.ofBytes bs) 0

/-- Encode an `Argument` into `sizeof(Argument)` bytes; `init` gives the bytes
that no written member covers. -/
def Argument.encode (init : Mem) (a : Argument) : List Nat :=
  Mem.toBytes (Argument.write init 0 a) Argument.layout.size

/-- Decode an `Argument` from its bytes. -/
def Argument.decode (bs : List Nat) : Option Argument := Argument.read (Mem.ofBytes bs) 0

/-- Encode a `Command` into `sizeof(Command)` bytes; `init` gives the bytes
that no written member covers. -/
def Command.encode (init : Mem) (c : Command) : List Nat :=
  Mem.toBytes (Command.write init 0 c) Command.layout.size

/-- Decode a `Command` from its bytes. -/
def Command.decode (bs : List Nat) : Option Command := Command.read (Mem.ofBytes bs) 0

/-! ## Values produced by the constructors -/

/-- An `Object` built by its constructor from a pointer. -/
inductive Object.Constructed : Object → Prop
  | ofParameters (Parameters : Nat) (Type_ : ObjectType) :
    Parameters < 2 ^ 64 → Object.Constructed (Object.ofParameters Parameters Type_)

/-- An `Argument` built by one of its four constructors from a value of the
parameter type. -/
inductive Argument.Constructed : Argument → Prop
  | ofSingle (Value : Nat) : Value < 2 ^ 32 → Argument.Constructed (Argument.ofSingle Value)
  | ofInteger (Value : Nat) : Value < 2 ^ 32 → Argument.Constructed (Argument.ofInteger Value)
  | ofPointer (Value : Nat) : Value < 2 ^ 64 → Argument.Constructed (Argument.ofPointer Value)
  | ofObject (Value : Object) : Value.Constructed → Argument.Constructed (Argument.ofObject Value)

/-- A `Command` built by one of its five constructors from values of the
parameter types. -/
inductive Command.Constructed : Command → Prop
  | ofFunctions (Functions : Nat) (Checksum : Int) :
    Functions < 2 ^ 64 → -2 ^ 31 ≤ Checksum → Checksum < 2 ^ 31 →
    Command.Constructed (Command.ofFunctions Functions Checksum)
  | ofBool (ProcessAssemblies : Bool) : Command.Constructed (Command.ofBool ProcessAssemblies)
  | ofMethod (Method : Nat) (Optional : Bool) :
    Method < 2 ^ 64 → Command.Constructed (Command.ofMethod Method Optional)
  | ofFunction (Function : Nat) :
    Function < 2 ^ 64 → Command.Constructed (Command.ofFunction Function)
  | ofFunctionValue (Function : Nat) (Value : Argument) :
    Function < 2 ^ 64 → Value.Constructed →
    Command.Constructed (Command.ofFunctionValue Function Value)

/-! ## Process-wide state and the tick hooks -/

/-- The four tick functions declared by the header. -/
inductive TickFunction
  | PrePhysics
  | DuringPhysics
  | PostPhysics
  | PostUpdate
deriving DecidableEq, Repr

/-- The event slot of each tick function. -/
def TickFunction.event : TickFunction → Nat
  | .PrePhysics => OnWorldPrePhysicsTick
  | .DuringPhysics => OnWorldDuringPhysicsTick
  | .PostPhysics => OnWorldPostPhysicsTick
  | .PostUpdate => OnWorldPostUpdateTick

/-- The process-wide variables of the header: `Status`, `WorldTickState`, the
table `Shared::Events`, and the channel `ManagedCommand`, which is represented
by the commands it has received, oldest first. -/
structure Globals where
  Status : StatusType
  WorldTickState : TickState
  Events : Nat → Nat
  ManagedCommand : List Command

/-- The initializers of the header: `Status = StatusType::Stopped`,
`WorldTickState = TickState::Stopped`, a zero-initialized `Events`, and no
command sent yet. -/
def Globals.initial : Globals :=
  { Status := .Stopped, WorldTickState := .Stopped, Events := fun _ => 0, ManagedCommand := [] }

/-- Modelled from the spec: the bodies of the four `ExecuteTick` overrides,
which the header only declares. Section 4.2: each execute-tick, when the
process-wide status is "running" and the world tick state is "started",
forwards the phase identifier and the delta time to the managed side through
the command channel; otherwise the call is a no-op. The forwarded command is
the execute verb on the event slot of the phase with the delta time as its
argument. -/
def ExecuteTick (tick : TickFunction) (DeltaTime : Nat) (g : Globals) : Globals :=
  if g.Status = .Running ∧ g.WorldTickState = .Started then
    { g with ManagedCommand := g.ManagedCommand ++
        [Command.ofFunctionValue (g.Events tick.event) (Argument.ofSingle DeltaTime)] }
  else g

/-! ## Proof vocabulary -/

/-- The bytes at `off` hold the low `width` bytes of `v`, least significant first. -/
def HoldsLE (m : Mem) (off width v : Nat) : Prop :=
  ∀ j, j < width → m (off + j) = v / 256 ^ j % 256

/-- Wherever `m` holds a byte value on `[lo, hi)`, `m'` holds the same. -/
def AgreeOnBytes (m m' : Mem) (lo hi : Nat) : Prop :=
  ∀ i, lo ≤ i → i < hi → m i < 256 → m' i = m i

/-- The bytes at `this` hold the members of the `Object`. -/
def Object.Holds (m : Mem) (this : Nat) (o : Object) : Prop :=
  HoldsLE m (this + Object.offParameters) 8 o.Parameters ∧
  HoldsLE m (this + Object.offType) 4 (int32Bits o.Type_.toInt32)

/-- The bytes at `this` hold the written member of the union of `Argument`. -/
def ArgumentUnion.Holds (m : Mem) (this : Nat) : ArgumentUnion → Prop
  | .Single v => HoldsLE m this 4 v
  | .Integer v => HoldsLE m this 4 v
  | .Pointer p => HoldsLE m this 8 p
  | .Object o => Object.Holds m this o

/-- The bytes at `this` hold the written member and the tag of the `Argument`. -/
def Argument.Holds (m : Mem) (this : Nat) (a : Argument) : Prop :=
  a.payload.Holds m (this + Argument.offUnion) ∧
  HoldsLE m (this + Argument.offType) 4 (int32Bits a.Type_.toInt32)

/-- The bytes at `this` hold the written members of the union of `Command`. -/
def CommandUnion.Holds (m : Mem) (this : Nat) : CommandUnion → Prop
  | .unset => True
  | .BufferChecksum b k =>
    HoldsLE m (this + Command.offBuffer) 8 b ∧
    HoldsLE m (this + Command.offChecksum) 4 (int32Bits k)
  | .MethodOptional s o =>
    HoldsLE m (this + Command.offMethod) 8 s ∧
    HoldsLE m (this + Command.offOptional) 4 (int32Bits o)
  | .FunctionValue f v =>
    HoldsLE m (this + Command.offFunction) 8 f ∧ Argument.Holds m (this + Command.offValue) v

/-- The bytes at `this` hold the written members and the verb of the `Command`. -/
def Command.Holds (m : Mem) (this : Nat) (c : Command) : Prop :=
  c.payload.Holds m this ∧ HoldsLE m (this + Command.offType) 4 (int32Bits c.Type_.toInt32)

/-! ## Theorems -/

/-! ### Offsets and sizes, evaluated -/

theorem object_offParameters_eq : Object.offParameters = 0 := by decide

theorem object_offType_eq : Object.offType = 8 := by decide

theorem argument_offUnion_eq : Argument.offUnion = 0 := by decide

theorem argument_offType_eq : Argument.offType = 16 := by decide

theorem command_offBuffer_eq : Command.offBuffer = 0 := by decide

theorem command_offChecksum_eq : Command.offChecksum = 8 := by decide

theorem command_offMethod_eq : Command.offMethod = 0 := by decide

theorem command_offOptional_eq : Command.offOptional = 8 := by decide

theorem command_offFunction_eq : Command.offFunction = 0 := by decide

theorem command_offValue_eq : Command.offValue = 8 := by decide

theorem command_offType_eq : Command.offType = 32 := by decide

theorem object_size_eq : Object.layout.size = 16 := by decide

theorem argument_size_eq : Argument.layout.size = 24 := by decide

theorem command_size_eq : Command.layout.size = 40 := by decide

/-! ### Loads and stores -/

theorem storeLE_outside (m : Mem) (off w v i : Nat) (h : i < off ∨ off + w ≤ i) :
    storeLE m off w v i = m i := by
  have hn : ¬ (off ≤ i ∧ i < off + w) := by omega
  simp only [storeLE, hn, if_false]

theorem holdsLE_storeLE_same (m : Mem) (off w v : Nat) :
    HoldsLE (storeLE m off w v) off w v := by
  intro j hj
  have hc : off ≤ off + j ∧ off + j < off + w := by omega
  simp only [storeLE, hc, and_self, if_true, Nat.add_sub_cancel_left]

theorem holdsLE_lt (m : Mem) (off w v j : Nat) (h : HoldsLE m off w v) (hj : j < w) :
    m (off + j) < 256 := by
  rw [h j hj]
  exact Nat.mod_lt _ (by norm_num)

theorem loadLE_of_holdsLE :
    ∀ (w : Nat) (m : Mem) (off v : Nat), HoldsLE m off w v → loadLE m off w = v % 256 ^ w
  | 0, m, off, v, _ => by simp [loadLE, Nat.mod_one]
  | w + 1, m, off, v, h => by
    have h0 : m off = v % 256 := by
      have := h 0 (Nat.succ_pos w)
      simpa using this
    have ih : loadLE m (off + 1) w = v / 256 % 256 ^ w := by
      apply loadLE_of_holdsLE w m (off + 1) (v / 256)
      intro j hj
      have hj1 := h (j + 1) (by omega)
      rw [show off + 1 + j = off + (j + 1) by omega, hj1, Nat.div_div_eq_div_mul, pow_succ']
    simp only [loadLE, ih, h0]
    rw [pow_succ', Nat.mod_mul]

theorem holdsLE_of_agree (m m' : Mem) (lo hi off w v : Nat) (ha : AgreeOnBytes m m' lo hi)
    (hlo : lo ≤ off) (hhi : off + w ≤ hi) (h : HoldsLE m off w v) : HoldsLE m' off w v := by
  intro j hj
  rw [ha (off + j) (by omega) (by omega) (holdsLE_lt m off w v j h hj)]
  exact h j hj

theorem agree_mono (m m' : Mem) (lo hi lo' hi' : Nat) (ha : AgreeOnBytes m m' lo hi)
    (hlo : lo ≤ lo') (hhi : hi' ≤ hi) : AgreeOnBytes m m' lo' hi' :=
  fun i h1 h2 h3 => ha i (by omega) (by omega) h3

theorem agree_storeLE (m : Mem) (off w v lo hi : Nat) (hd : off + w ≤ lo ∨ hi ≤ off) :
    AgreeOnBytes m (storeLE m off w v) lo hi := by
  intro i h1 h2 _
  exact storeLE_outside m off w v i (by omega)

theorem ofBytes_toBytes (m : Mem) (n i : Nat) (h : i < n) :
    Mem.ofBytes (Mem.toBytes m n) i = m i % 256 := by
  simp [Mem.ofBytes, Mem.toBytes, List.getD_eq_getElem?_getD, List.getElem?_range, h]

theorem agree_ofBytes_toBytes (m : Mem) (n lo hi : Nat) (hn : hi ≤ n) :
    AgreeOnBytes m (Mem.ofBytes (Mem.toBytes m n)) lo hi := by
  intro i _ h2 h3
  rw [ofBytes_toBytes m n i (by omega), Nat.mod_eq_of_lt h3]

theorem toBytes_length (m : Mem) (n : Nat) : (Mem.toBytes m n).length = n := by
  simp [Mem.toBytes]

theorem toBytes_lt (m : Mem) (n b : Nat) (h : b ∈ Mem.toBytes m n) : b < 256 := by
  simp only [Mem.toBytes, List.mem_map] at h
  obtain ⟨i, _, rfl⟩ := h
  exact Nat.mod_lt _ (by norm_num)

theorem int32_bits_roundtrip (x : Int) (h1 : -2 ^ 31 ≤ x) (h2 : x < 2 ^ 31) :
    int32OfBits (int32Bits x % 256 ^ 4) = x := by
  norm_num at h1 h2
  have hb : int32Bits x < 4294967296 := by
    unfold int32Bits
    omega
  have h256 : (256 : Nat) ^ 4 = 4294967296 := by norm_num
  rw [h256, Nat.mod_eq_of_lt hb]
  unfold int32OfBits int32Bits
  split <;> omega

theorem loadInt32_of_holdsLE (m : Mem) (off : Nat) (x : Int) (h : HoldsLE m off 4 (int32Bits x))
    (h1 : -2 ^ 31 ≤ x) (h2 : x < 2 ^ 31) : loadInt32 m off = x := by
  unfold loadInt32
  rw [loadLE_of_holdsLE 4 m off _ h]
  exact int32_bits_roundtrip x h1 h2

theorem loadPointer_of_holdsLE (m : Mem) (off p : Nat) (h : HoldsLE m off 8 p)
    (hp : p < 2 ^ 64) : loadPointer m off = p := by
  unfold loadPointer
  rw [loadLE_of_holdsLE 8 m off _ h]
  apply Nat.mod_eq_of_lt
  norm_num at hp ⊢
  exact hp

theorem loadWord_of_holdsLE (m : Mem) (off v : Nat) (h : HoldsLE m off 4 v)
    (hv : v < 2 ^ 32) : loadWord m off = v := by
  unfold loadWord
  rw [loadLE_of_holdsLE 4 m off _ h]
  apply Nat.mod_eq_of_lt
  norm_num at hv ⊢
  exact hv



/-! ### Reading back what was written -/

theorem objectType_toInt32_range (t : ObjectType) :
    -2 ^ 31 ≤ t.toInt32 ∧ t.toInt32 < 2 ^ 31 := by
  cases t <;> simp [ObjectType.toInt32]

theorem argumentType_toInt32_range (t : ArgumentType) :
    -2 ^ 31 ≤ t.toInt32 ∧ t.toInt32 < 2 ^ 31 := by
  cases t <;> simp [ArgumentType.toInt32]

theorem commandType_toInt32_range (t : CommandType) :
    -2 ^ 31 ≤ t.toInt32 ∧ t.toInt32 < 2 ^ 31 := by
  cases t <;> simp [CommandType.toInt32]

theorem objectType_ofInt32_toInt32 (t : ObjectType) : ObjectType.ofInt32 t.toInt32 = some t := by
  cases t <;> rfl

theorem argumentType_ofInt32_toInt32 (t : ArgumentType) :
    ArgumentType.ofInt32 t.toInt32 = some t := by
  cases t <;> rfl

theorem commandType_ofInt32_toInt32 (t : CommandType) :
    CommandType.ofInt32 t.toInt32 = some t := by
  cases t <;> rfl

theorem object_holds_write (m : Mem) (this : Nat) (o : Object) :
    Object.Holds (Object.write m this o) this o := by
  unfold Object.Holds Object.write storeInt32 storePointer
  rw [object_offParameters_eq, object_offType_eq]
  refine ⟨?_, holdsLE_storeLE_same _ _ _ _⟩
  exact holdsLE_of_agree _ _ (this + 0) (this + 0 + 8) _ _ _
    (agree_storeLE _ _ _ _ _ _ (by omega)) (le_refl _) (le_refl _)
    (holdsLE_storeLE_same _ _ _ _)

theorem object_holds_of_agree (m m' : Mem) (this : Nat) (o : Object)
    (ha : AgreeOnBytes m m' this (this + 16)) (h : Object.Holds m this o) :
    Object.Holds m' this o := by
  unfold Object.Holds at h ⊢
  rw [object_offParameters_eq, object_offType_eq] at h ⊢
  exact ⟨holdsLE_of_agree m m' this (this + 16) _ _ _ ha (by omega) (by omega) h.1,
    holdsLE_of_agree m m' this (this + 16) _ _ _ ha (by omega) (by omega) h.2⟩

theorem object_read_of_holds (m : Mem) (this : Nat) (o : Object)
    (h : Object.Holds m this o) (hc : o.Constructed) : Object.read m this = some o := by
  obtain ⟨h1, h2⟩ := h
  cases hc with
  | ofParameters P T hP =>
    have ht : loadInt32 m (this + Object.offType) = T.toInt32 :=
      loadInt32_of_holdsLE _ _ _ h2 (objectType_toInt32_range T).1 (objectType_toInt32_range T).2
    have hp : loadPointer m (this + Object.offParameters) = P :=
      loadPointer_of_holdsLE _ _ _ h1 hP
    unfold Object.read
    rw [ht, hp, objectType_ofInt32_toInt32]
    rfl

theorem argumentUnion_holds_write (m : Mem) (this : Nat) (u : ArgumentUnion) :
    u.Holds (u.write m this) this := by
  cases u with
  | Single v => exact holdsLE_storeLE_same _ _ _ _
  | Integer v => exact holdsLE_storeLE_same _ _ _ _
  | Pointer p => exact holdsLE_storeLE_same _ _ _ _
  | Object o => exact object_holds_write m this o

theorem argumentUnion_holds_of_agree (m m' : Mem) (this : Nat) (u : ArgumentUnion)
    (ha : AgreeOnBytes m m' this (this + 16)) (h : u.Holds m this) : u.Holds m' this := by
  cases u with
  | Single v => exact holdsLE_of_agree m m' this (this + 16) _ _ _ ha (by omega) (by omega) h
  | Integer v => exact holdsLE_of_agree m m' this (this + 16) _ _ _ ha (by omega) (by omega) h
  | Pointer p => exact holdsLE_of_agree m m' this (this + 16) _ _ _ ha (by omega) (by omega) h
  | Object o => exact object_holds_of_agree m m' this o ha h

theorem argumentUnion_write_outside (m : Mem) (this : Nat) (u : ArgumentUnion) (i : Nat)
    (h : i < this ∨ this + 16 ≤ i) : u.write m this i = m i := by
  cases u with
  | Single v => exact storeLE_outside _ _ _ _ _ (by omega)
  | Integer v => exact storeLE_outside _ _ _ _ _ (by omega)
  | Pointer p => exact storeLE_outside _ _ _ _ _ (by omega)
  | Object o =>
    show storeLE (storeLE m (this + Object.offParameters) 8 o.Parameters)
      (this + Object.offType) 4 (int32Bits o.Type_.toInt32) i = m i
    rw [object_offParameters_eq, object_offType_eq,
      storeLE_outside _ (this + 8) 4 _ i (by omega), storeLE_outside _ (this + 0) 8 _ i (by omega)]

theorem argument_holds_write (m : Mem) (this : Nat) (a : Argument) :
    Argument.Holds (Argument.write m this a) this a := by
  unfold Argument.Holds Argument.write storeInt32
  rw [argument_offUnion_eq, argument_offType_eq]
  refine ⟨?_, holdsLE_storeLE_same _ _ _ _⟩
  exact argumentUnion_holds_of_agree _ _ (this + 0) a.payload
    (agree_storeLE _ _ _ _ _ _ (by omega)) (argumentUnion_holds_write _ _ _)

theorem argument_holds_of_agree (m m' : Mem) (this : Nat) (a : Argument)
    (ha : AgreeOnBytes m m' this (this + 24)) (h : Argument.Holds m this a) :
    Argument.Holds m' this a := by
  unfold Argument.Holds at h ⊢
  rw [argument_offUnion_eq, argument_offType_eq] at h ⊢
  exact ⟨argumentUnion_holds_of_agree m m' (this + 0) a.payload
      (agree_mono m m' this (this + 24) _ _ ha (by omega) (by omega)) h.1,
    holdsLE_of_agree m m' this (this + 24) _ _ _ ha (by omega) (by omega) h.2⟩

theorem argument_write_outside (m : Mem) (this : Nat) (a : Argument) (i : Nat)
    (h : i < this ∨ this + 24 ≤ i) : Argument.write m this a i = m i := by
  unfold Argument.write storeInt32
  rw [argument_offUnion_eq, argument_offType_eq, storeLE_outside _ _ _ _ _ (by omega),
    argumentUnion_write_outside _ _ _ _ (by omega)]

theorem argument_read_of_holds (m : Mem) (this : Nat) (a : Argument)
    (h : Argument.Holds m this a) (hc : a.Constructed) : Argument.read m this = some a := by
  obtain ⟨h1, h2⟩ := h
  have ht : loadInt32 m (this + Argument.offType) = a.Type_.toInt32 :=
    loadInt32_of_holdsLE _ _ _ h2 (argumentType_toInt32_range a.Type_).1 (argumentType_toInt32_range a.Type_).2
  unfold Argument.read
  rw [ht, argumentType_ofInt32_toInt32]
  cases hc with
  | ofSingle v hv =>
    have hl := loadWord_of_holdsLE _ _ _ h1 hv
    simp only [Argument.ofSingle, hl]
  | ofInteger v hv =>
    have hl := loadWord_of_holdsLE _ _ _ h1 hv
    simp only [Argument.ofInteger, hl]
  | ofPointer p hp =>
    have hl := loadPointer_of_holdsLE _ _ _ h1 hp
    by_cases h0 : p = 0
    · subst h0
      simp only [Argument.ofPointer, if_true] at hl ⊢
      rw [hl]
    · simp only [Argument.ofPointer, h0, if_false] at hl ⊢
      rw [hl]
  | ofObject o ho =>
    have hl := object_read_of_holds _ _ _ h1 ho
    simp only [Argument.ofObject, hl]

theorem agree_of_eq (m m' : Mem) (lo hi : Nat) (h : ∀ i, lo ≤ i → i < hi → m' i = m i) :
    AgreeOnBytes m m' lo hi :=
  fun i h1 h2 _ => h i h1 h2

theorem commandUnion_write_outside (m : Mem) (this : Nat) (u : CommandUnion) (i : Nat)
    (h : i < this ∨ this + 32 ≤ i) : u.write m this i = m i := by
  cases u with
  | unset => rfl
  | BufferChecksum b k =>
    show storeLE (storeLE m (this + Command.offBuffer) 8 b) (this + Command.offChecksum) 4
      (int32Bits k) i = m i
    rw [command_offBuffer_eq, command_offChecksum_eq,
      storeLE_outside _ (this + 8) 4 _ i (by omega), storeLE_outside _ (this + 0) 8 _ i (by omega)]
  | MethodOptional s o =>
    show storeLE (storeLE m (this + Command.offMethod) 8 s) (this + Command.offOptional) 4
      (int32Bits o) i = m i
    rw [command_offMethod_eq, command_offOptional_eq,
      storeLE_outside _ (this + 8) 4 _ i (by omega), storeLE_outside _ (this + 0) 8 _ i (by omega)]
  | FunctionValue f v =>
    show Argument.write (storeLE m (this + Command.offFunction) 8 f) (this + Command.offValue)
      v i = m i
    rw [command_offFunction_eq, command_offValue_eq,
      argument_write_outside _ (this + 8) v i (by omega),
      storeLE_outside _ (this + 0) 8 _ i (by omega)]

theorem commandUnion_holds_write (m : Mem) (this : Nat) (u : CommandUnion) :
    u.Holds (u.write m this) this := by
  cases u with
  | unset => exact True.intro
  | BufferChecksum b k =>
    show HoldsLE (storeLE (storeLE m (this + Command.offBuffer) 8 b)
        (this + Command.offChecksum) 4 (int32Bits k)) (this + Command.offBuffer) 8 b ∧
      HoldsLE (storeLE (storeLE m (this + Command.offBuffer) 8 b)
        (this + Command.offChecksum) 4 (int32Bits k)) (this + Command.offChecksum) 4 (int32Bits k)
    rw [command_offBuffer_eq, command_offChecksum_eq]
    refine ⟨?_, holdsLE_storeLE_same _ _ _ _⟩
    exact holdsLE_of_agree _ _ (this + 0) (this + 0 + 8) _ _ _
      (agree_storeLE _ _ _ _ _ _ (by omega)) (le_refl _) (le_refl _)
      (holdsLE_storeLE_same _ _ _ _)
  | MethodOptional s o =>
    show HoldsLE (storeLE (storeLE m (this + Command.offMethod) 8 s)
        (this + Command.offOptional) 4 (int32Bits o)) (this + Command.offMethod) 8 s ∧
      HoldsLE (storeLE (storeLE m (this + Command.offMethod) 8 s)
        (this + Command.offOptional) 4 (int32Bits o)) (this + Command.offOptional) 4 (int32Bits o)
    rw [command_offMethod_eq, command_offOptional_eq]
    refine ⟨?_, holdsLE_storeLE_same _ _ _ _⟩
    exact holdsLE_of_agree _ _ (this + 0) (this + 0 + 8) _ _ _
      (agree_storeLE _ _ _ _ _ _ (by omega)) (le_refl _) (le_refl _)
      (holdsLE_storeLE_same _ _ _ _)
  | FunctionValue f v =>
    show HoldsLE (Argument.write (storeLE m (this + Command.offFunction) 8 f)
        (this + Command.offValue) v) (this + Command.offFunction) 8 f ∧
      Argument.Holds (Argument.write (storeLE m (this + Command.offFunction) 8 f)
        (this + Command.offValue) v) (this + Command.offValue) v
    refine ⟨?_, argument_holds_write _ _ _⟩
    rw [command_offFunction_eq, command_offValue_eq]
    refine holdsLE_of_agree (storeLE m (this + 0) 8 f) _ (this + 0) (this + 0 + 8) _ _ _ ?_
      (le_refl _) (le_refl _) (holdsLE_storeLE_same _ _ _ _)
    exact agree_of_eq (storeLE m (this + 0) 8 f) _ _ _
      (fun i _ h2 => argument_write_outside (storeLE m (this + 0) 8 f) (this + 8) v i (by omega))

theorem commandUnion_holds_of_agree (m m' : Mem) (this : Nat) (u : CommandUnion)
    (ha : AgreeOnBytes m m' this (this + 32)) (h : u.Holds m this) : u.Holds m' this := by
  cases u with
  | unset => exact True.intro
  | BufferChecksum b k =>
    unfold CommandUnion.Holds at h ⊢
    rw [command_offBuffer_eq, command_offChecksum_eq] at h ⊢
    exact ⟨holdsLE_of_agree m m' this (this + 32) _ _ _ ha (by omega) (by omega) h.1,
      holdsLE_of_agree m m' this (this + 32) _ _ _ ha (by omega) (by omega) h.2⟩
  | MethodOptional s o =>
    unfold CommandUnion.Holds at h ⊢
    rw [command_offMethod_eq, command_offOptional_eq] at h ⊢
    exact ⟨holdsLE_of_agree m m' this (this + 32) _ _ _ ha (by omega) (by omega) h.1,
      holdsLE_of_agree m m' this (this + 32) _ _ _ ha (by omega) (by omega) h.2⟩
  | FunctionValue f v =>
    unfold CommandUnion.Holds at h ⊢
    rw [command_offFunction_eq, command_offValue_eq] at h ⊢
    exact ⟨holdsLE_of_agree m m' this (this + 32) _ _ _ ha (by omega) (by omega) h.1,
      argument_holds_of_agree m m' (this + 8) v
        (agree_mono m m' this (this + 32) _ _ ha (by omega) (by omega)) h.2⟩

theorem command_holds_write (m : Mem) (this : Nat) (c : Command) :
    Command.Holds (Command.write m this c) this c := by
  unfold Command.Holds Command.write storeInt32
  rw [command_offType_eq]
  refine ⟨?_, holdsLE_storeLE_same _ _ _ _⟩
  exact commandUnion_holds_of_agree _ _ this c.payload
    (agree_storeLE _ _ _ _ _ _ (by omega)) (commandUnion_holds_write _ _ _)

theorem command_holds_of_agree (m m' : Mem) (this : Nat) (c : Command)
    (ha : AgreeOnBytes m m' this (this + 40)) (h : Command.Holds m this c) :
    Command.Holds m' this c := by
  unfold Command.Holds at h ⊢
  rw [command_offType_eq] at h ⊢
  exact ⟨commandUnion_holds_of_agree m m' this c.payload
      (agree_mono m m' this (this + 40) _ _ ha (by omega) (by omega)) h.1,
    holdsLE_of_agree m m' this (this + 40) _ _ _ ha (by omega) (by omega) h.2⟩

theorem command_readType_of_holds (m : Mem) (this : Nat) (t : CommandType)
    (h : HoldsLE m (this + Command.offType) 4 (int32Bits t.toInt32)) :
    Command.readType m this = some t := by
  unfold Command.readType
  rw [loadInt32_of_holdsLE _ _ _ h (commandType_toInt32_range t).1 (commandType_toInt32_range t).2,
    commandType_ofInt32_toInt32]

theorem command_read_of_holds (m : Mem) (this : Nat) (c : Command)
    (h : Command.Holds m this c) (hc : c.Constructed) : Command.read m this = some c := by
  obtain ⟨h1, h2⟩ := h
  unfold Command.read
  rw [command_readType_of_holds m this c.Type_ h2]
  cases hc with
  | ofFunctions b k hb hk1 hk2 =>
    have hl1 := loadPointer_of_holdsLE _ _ _ h1.1 hb
    have hl2 := loadInt32_of_holdsLE _ _ _ h1.2 hk1 hk2
    simp only [Command.ofFunctions, hl1, hl2]
  | ofBool b => cases b <;> rfl
  | ofMethod s o hs =>
    have hl1 := loadPointer_of_holdsLE _ _ _ h1.1 hs
    have hl2 := loadInt32_of_holdsLE _ _ _ h1.2 (by cases o <;> simp) (by cases o <;> simp)
    simp only [Command.ofMethod, hl1, hl2]
  | ofFunction f hf =>
    have hl1 := loadPointer_of_holdsLE _ _ _ h1.1 hf
    have hl2 := argument_read_of_holds _ _ _ h1.2
      (Argument.Constructed.ofPointer 0 (by norm_num))
    simp only [Command.ofFunction, hl1, hl2]
  | ofFunctionValue f v hf hv =>
    have hl1 := loadPointer_of_holdsLE _ _ _ h1.1 hf
    have hl2 := argument_read_of_holds _ _ _ h1.2 hv
    simp only [Command.ofFunctionValue, hl1, hl2]

/-! ### The claims -/

/-- C1: the tag of an `Argument` is fixed by the constructor that built it:
`Single` for a float, `Integer` for a `uint32_t`, `Object` for an `Object`, and
for a pointer `None` when it is null and `Pointer` when it is not. -/
theorem argument_tag_by_constructor (f u p : Nat) (o : Object) :
    (Argument.ofSingle f).Type_ = ArgumentType.Single ∧
    (Argument.ofInteger u).Type_ = ArgumentType.Integer ∧
    (Argument.ofObject o).Type_ = ArgumentType.Object ∧
    (Argument.ofPointer p).Type_ = (if p = 0 then ArgumentType.None else ArgumentType.Pointer) ∧
    (Argument.ofPointer 0).Type_ = ArgumentType.None ∧
    (Argument.ofPointer (p + 1)).Type_ = ArgumentType.Pointer :=
  ⟨rfl, rfl, rfl, rfl, rfl, by simp [Argument.ofPointer]⟩

/-- C2: under the target layout the sizes are `sizeof(Object) = 16`,
`sizeof(Argument) = 24` and `sizeof(Command) = 40`, so the three
`static_assert`s of the header hold. -/
theorem sizes_match_static_asserts :
    Object.layout.size = 16 ∧ Argument.layout.size = 24 ∧ Command.layout.size = 40 ∧
    staticAsserts = true := by
  decide

/-- C3: an `Object`, an `Argument` and a `Command` built by their constructors
are encoded into exactly 16, 24 and 40 bytes, every one of them a byte value,
with the `Argument` payload at offset 0, its tag at offset 16 and the tags
numbered 0 to 4; decoding those bytes by switching on the tag gives back the
value that was encoded, tag and payload. The bytes no member covers (`init`)
are arbitrary. -/
theorem encode_decode_roundtrip (init : Mem) (o : Object) (a : Argument) (c : Command)
    (ho : o.Constructed) (ha : a.Constructed) (hc : c.Constructed) :
    ((Object.encode init o).length = 16 ∧ (∀ b ∈ Object.encode init o, b < 256) ∧
      Object.decode (Object.encode init o) = some o) ∧
    ((Argument.encode init a).length = 24 ∧ (∀ b ∈ Argument.encode init a, b < 256) ∧
      Argument.decode (Argument.encode init a) = some a) ∧
    ((Command.encode init c).length = 40 ∧ (∀ b ∈ Command.encode init c, b < 256) ∧
      Command.decode (Command.encode init c) = some c) ∧
    Argument.offUnion = 0 ∧ Argument.offType = 16 ∧
    [ArgumentType.None, .Single, .Integer, .Pointer, .Object].map ArgumentType.toInt32 =
      [0, 1, 2, 3, 4] := by
  refine ⟨⟨?_, ?_, ?_⟩, ⟨?_, ?_, ?_⟩, ⟨?_, ?_, ?_⟩, by decide, by decide, by decide⟩
  · rw [Object.encode, toBytes_length, object_size_eq]
  · exact fun b hb => toBytes_lt _ _ b hb
  · apply object_read_of_holds _ 0 o _ ho
    apply object_holds_of_agree (Object.write init 0 o) _ 0 o _ (object_holds_write init 0 o)
    unfold Object.encode
    rw [object_size_eq]
    exact agree_ofBytes_toBytes _ _ _ _ (by omega)
  · rw [Argument.encode, toBytes_length, argument_size_eq]
  · exact fun b hb => toBytes_lt _ _ b hb
  · apply argument_read_of_holds _ 0 a _ ha
    apply argument_holds_of_agree (Argument.write init 0 a) _ 0 a _
      (argument_holds_write init 0 a)
    unfold Argument.encode
    rw [argument_size_eq]
    exact agree_ofBytes_toBytes _ _ _ _ (by omega)
  · rw [Command.encode, toBytes_length, command_size_eq]
  · exact fun b hb => toBytes_lt _ _ b hb
  · apply command_read_of_holds _ 0 c _ hc
    apply command_holds_of_agree (Command.write init 0 c) _ 0 c _
      (command_holds_write init 0 c)
    unfold Command.encode
    rw [command_size_eq]
    exact agree_ofBytes_toBytes _ _ _ _ (by omega)

/-- Witness of C3: an execute command on an object argument, over a memory
filled with `0xCC`. -/
theorem encode_decode_roundtrip_witness :
    (Object.ofParameters 4096 .ActorHitDelegate).Constructed ∧
    (Argument.ofObject (Object.ofParameters 4096 .ActorHitDelegate)).Constructed ∧
    (Command.ofFunctionValue 8192
      (Argument.ofObject (Object.ofParameters 4096 .ActorHitDelegate))).Constructed ∧
    Command.decode (Command.encode (fun _ => 204) (Command.ofFunctionValue 8192
      (Argument.ofObject (Object.ofParameters 4096 .ActorHitDelegate)))) =
      some (Command.ofFunctionValue 8192
        (Argument.ofObject (Object.ofParameters 4096 .ActorHitDelegate))) :=
  have ho : (Object.ofParameters 4096 .ActorHitDelegate).Constructed :=
    Object.Constructed.ofParameters 4096 .ActorHitDelegate (by norm_num)
  have ha : (Argument.ofObject (Object.ofParameters 4096 .ActorHitDelegate)).Constructed :=
    Argument.Constructed.ofObject _ ho
  have hc : (Command.ofFunctionValue 8192
      (Argument.ofObject (Object.ofParameters 4096 .ActorHitDelegate))).Constructed :=
    Command.Constructed.ofFunctionValue 8192 _ (by norm_num) ha
  ⟨ho, ha, hc, (encode_decode_roundtrip (fun _ => 204) _ _ _ ho ha hc).2.2.1.2.2⟩

/-- C4: `Command(b)` has the verb `LoadAssemblies`, numbered 2, when `b` is true
and `UnloadAssemblies`, numbered 3, when `b` is false, and it writes no payload
member: the union is left unset, and in memory only the four bytes of the verb
change. -/
theorem command_ofBool_verb_only (b : Bool) (init : Mem) (this i : Nat) :
    (Command.ofBool b).Type_ =
      (if b = true then CommandType.LoadAssemblies else CommandType.UnloadAssemblies) ∧
    (Command.ofBool true).Type_ = CommandType.LoadAssemblies ∧
    (Command.ofBool false).Type_ = CommandType.UnloadAssemblies ∧
    CommandType.LoadAssemblies.toInt32 = 2 ∧ CommandType.UnloadAssemblies.toInt32 = 3 ∧
    (Command.ofBool b).payload = CommandUnion.unset ∧
    (Command.ofBool b).Buffer = none ∧ (Command.ofBool b).Checksum = none ∧
    (Command.ofBool b).Method = none ∧ (Command.ofBool b).Optional = none ∧
    (Command.ofBool b).Function = none ∧ (Command.ofBool b).Value = none ∧
    ((i < this + Command.offType ∨ this + Command.offType + 4 ≤ i) →
      Command.write init this (Command.ofBool b) i = init i) := by
  refine ⟨by cases b <;> rfl, rfl, rfl, rfl, rfl, by cases b <;> rfl, by cases b <;> rfl,
    by cases b <;> rfl, by cases b <;> rfl, by cases b <;> rfl, by cases b <;> rfl,
    by cases b <;> rfl, ?_⟩
  intro h
  have hp : (Command.ofBool b).payload = CommandUnion.unset := by cases b <;> rfl
  unfold Command.write storeInt32
  rw [storeLE_outside _ _ _ _ _ h, hp]
  rfl

/-- C5: for every function pointer `f`, the one-parameter `Command(f)` has the
verb `Execute`, `Function = f`, and as `Value` the `Argument` built from the
null pointer, whose tag is `None`; it equals `Command(f, Argument(nullptr))`. -/
theorem command_ofFunction_no_argument (f : Nat) :
    (Command.ofFunction f).Type_ = CommandType.Execute ∧
    (Command.ofFunction f).Function = some f ∧
    (Command.ofFunction f).Value = some (Argument.ofPointer 0) ∧
    (Argument.ofPointer 0).Type_ = ArgumentType.None ∧
    Command.ofFunction f = Command.ofFunctionValue f (Argument.ofPointer 0) :=
  ⟨rfl, rfl, rfl, rfl, rfl⟩

/-- C6: for every method-name pointer `m` and boolean `o`, `Command(m, o)` has
the verb `Find`, `Method = m`, and `Optional` equal to 1 when `o` is true and
to 0 when it is false, so `Optional` is non-zero exactly when `o` is true. -/
theorem command_ofMethod_fields (m : Nat) (o : Bool) :
    (Command.ofMethod m o).Type_ = CommandType.Find ∧
    (Command.ofMethod m o).Method = some m ∧
    (Command.ofMethod m true).Optional = some 1 ∧
    (Command.ofMethod m false).Optional = some 0 ∧
    (∃ k : Int, (Command.ofMethod m o).Optional = some k ∧ (k ≠ 0 ↔ o = true)) := by
  refine ⟨rfl, rfl, rfl, rfl, ?_⟩
  cases o
  · exact ⟨0, rfl, by simp⟩
  · exact ⟨1, rfl, by simp⟩

/-- C7: `Command(t, c)` has the verb `Initialize` with `Buffer = t` and
`Checksum = c`; `Command(f, a)` has the verb `Execute` with `Function = f` and
`Value = a`, tag and payload. -/
theorem command_payload_constructors (t : Nat) (c : Int) (f : Nat) (a : Argument) :
    (Command.ofFunctions t c).Type_ = CommandType.Initialize ∧
    (Command.ofFunctions t c).Buffer = some t ∧
    (Command.ofFunctions t c).Checksum = some c ∧
    (Command.ofFunctionValue f a).Type_ = CommandType.Execute ∧
    (Command.ofFunctionValue f a).Function = some f ∧
    (Command.ofFunctionValue f a).Value = some a ∧
    (∀ v, (Command.ofFunctionValue f a).Value = some v →
      v.Type_ = a.Type_ ∧ v.payload = a.payload) := by
  refine ⟨rfl, rfl, rfl, rfl, rfl, rfl, ?_⟩
  intro v hv
  have : a = v := Option.some.inj hv
  subst this
  exact ⟨rfl, rfl⟩

/-- C8: with the world tick state `Stopped`, which is its initial value, the
execute-tick of each of the four tick functions, with any delta time, sends
nothing to `ManagedCommand` and changes no state. -/
theorem executeTick_stopped_noop (tick : TickFunction) (DeltaTime : Nat) (g : Globals)
    (h : g.WorldTickState = TickState.Stopped) :
    ExecuteTick tick DeltaTime g = g ∧
    (ExecuteTick tick DeltaTime g).ManagedCommand = g.ManagedCommand ∧
    Globals.initial.WorldTickState = TickState.Stopped := by
  have hg : ExecuteTick tick DeltaTime g = g := by
    unfold ExecuteTick
    rw [h]
    simp
  exact ⟨hg, by rw [hg], rfl⟩

/-- Witness of C8: the post-update tick, in a running process whose world tick
state is `Stopped`. -/
theorem executeTick_stopped_noop_witness :
    ({ Globals.initial with Status := .Running } : Globals).WorldTickState = TickState.Stopped ∧
    (ExecuteTick .PostUpdate 1015580809 { Globals.initial with Status := .Running }).ManagedCommand
      = [] :=
  ⟨rfl, (executeTick_stopped_noop .PostUpdate 1015580809
    { Globals.initial with Status := .Running } rfl).2.1⟩

/-- C9: in the 40-byte `Command`, `Buffer`, `Method` and `Function` are at offset
0, `Checksum`, `Optional` and `Value` at offset 8, the largest alternative ends
at byte 32, where the verb begins, and the tag of `Value` (offset 24) ends
before it. So no payload store reaches a byte of the verb, and the verb read
from a written `Command` is the one it was given, also after any further
payload is stored over it. -/
theorem command_verb_not_overlapped (init : Mem) (this : Nat) (c : Command) (u : CommandUnion)
    (i : Nat) :
    (Command.offBuffer = 0 ∧ Command.offMethod = 0 ∧ Command.offFunction = 0) ∧
    (Command.offChecksum = 8 ∧ Command.offOptional = 8 ∧ Command.offValue = 8) ∧
    (Command.offValue + Argument.layout.size = 32 ∧ Command.unionLayout.size = 32 ∧
      Command.offType = 32 ∧ Command.layout.size = 40) ∧
    (Command.offValue + Argument.offType = 24 ∧
      Command.offValue + Argument.offType + Layout.int32.size ≤ Command.offType) ∧
    (this + Command.offType ≤ i → CommandUnion.write init this u i = init i) ∧
    Command.readType (Command.write init this c) this = some c.Type_ ∧
    Command.readType (CommandUnion.write (Command.write init this c) this u) this =
      some c.Type_ := by
  have hT : HoldsLE (Command.write init this c) (this + Command.offType) 4
      (int32Bits c.Type_.toInt32) := (command_holds_write init this c).2
  refine ⟨by decide, by decide, by decide, by decide, ?_, ?_, ?_⟩
  · intro h
    rw [command_offType_eq] at h
    exact commandUnion_write_outside init this u i (by omega)
  · exact command_readType_of_holds _ _ _ hT
  · apply command_readType_of_holds
    rw [command_offType_eq] at hT ⊢
    refine holdsLE_of_agree (Command.write init this c) _ (this + 32) (this + 32 + 4) _ _ _ ?_
      (le_refl _) (le_refl _) hT
    exact agree_of_eq (Command.write init this c) _ _ _
      (fun j h1 _ => commandUnion_write_outside (Command.write init this c) this u j (by omega))

/-- C10: for an `Argument` built by any of the four constructors, the tag
`Pointer` means a non-null pointer payload, and the tag `None` means that it is
the `Argument` of the null pointer; a null `Parameters` in an `Object`, `0.0f`
and `0u` keep the tags `Object`, `Single` and `Integer`. -/
theorem argument_null_invariant (a : Argument) (h : a.Constructed) (t : ObjectType) :
    (a.Type_ = ArgumentType.Pointer → ∃ p, p ≠ 0 ∧ a.payload = ArgumentUnion.Pointer p) ∧
    (a.Type_ = ArgumentType.None →
      a.payload = ArgumentUnion.Pointer 0 ∧ a = Argument.ofPointer 0) ∧
    (Argument.ofObject (Object.ofParameters 0 t)).Type_ = ArgumentType.Object ∧
    (Argument.ofSingle 0).Type_ = ArgumentType.Single ∧
    (Argument.ofInteger 0).Type_ = ArgumentType.Integer := by
  refine ⟨?_, ?_, rfl, rfl, rfl⟩
  · intro ht
    cases h with
    | ofSingle v _ => exact absurd ht (by simp [Argument.ofSingle])
    | ofInteger v _ => exact absurd ht (by simp [Argument.ofInteger])
    | ofPointer p _ =>
      by_cases hp : p = 0
      · subst hp
        exact absurd ht (by simp [Argument.ofPointer])
      · exact ⟨p, hp, rfl⟩
    | ofObject o _ => exact absurd ht (by simp [Argument.ofObject])
  · intro ht
    cases h with
    | ofSingle v _ => exact absurd ht (by simp [Argument.ofSingle])
    | ofInteger v _ => exact absurd ht (by simp [Argument.ofInteger])
    | ofPointer p _ =>
      by_cases hp : p = 0
      · subst hp
        exact ⟨rfl, rfl⟩
      · exact absurd ht (by simp [Argument.ofPointer, hp])
    | ofObject o _ => exact absurd ht (by simp [Argument.ofObject])

/-- Witness of C10: the `Argument` of the null pointer. -/
theorem argument_null_invariant_witness :
    (Argument.ofPointer 0).Constructed ∧
    ((Argument.ofPointer 0).Type_ = ArgumentType.None →
      (Argument.ofPointer 0).payload = ArgumentUnion.Pointer 0 ∧
      Argument.ofPointer 0 = Argument.ofPointer 0) :=
  ⟨Argument.Constructed.ofPointer 0 (by norm_num),
    (argument_null_invariant (Argument.ofPointer 0)
      (Argument.Constructed.ofPointer 0 (by norm_num)) .ActorOverlapDelegate).2.1⟩

end UnrealCLR
